import Mathlib

/-!
Verification of the Harmonic Resonance Engine (`src/src/HarmonicPlayer.tsx`)
against its natural-language specification.

The TypeScript source is shallowly embedded:
* JavaScript numbers are modelled as real numbers (`ℝ`) where transcendental
  functions (`Math.log`, `Math.sin`, `Math.exp`, `Math.sqrt`) appear, and as
  exact rationals (`ℚ`) in the purely rational harmonic-bank arithmetic.
* `Math.sqrt` of a negative argument yields `NaN` in JavaScript, and an
  arithmetic operation on `undefined` yields `NaN` too; `NaN` propagates
  through every later arithmetic operation and through
  `Math.min`/`Math.max`.  Both are modelled by `Option` results where
  `none` stands for `undefined`/`NaN`.
* An object-literal member access `phrasePresets[k]` walks the JavaScript
  prototype chain: for the property names of `Object.prototype`
  (`"constructor"`, `"toString"`, …) it yields the inherited, non-nullish
  member rather than `undefined`; this is modelled by `JsLookup`.
* The JavaScript remainder operator `%` truncates towards zero (the result
  carries the sign of the dividend); it is modelled by `jsRem`.
-/

namespace HarmonicPlayer

/- ═══════ constants (HarmonicPlayer.tsx lines 84‑94) ═══════ -/

/-- `const PHI = (1 + Math.sqrt(5)) / 2` (line 84). -/
noncomputable def PHI : ℝ := (1 + Real.sqrt 5) / 2

/-- `const PHI_FADE = PHI` (line 85): the stop() fade window in seconds. -/
noncomputable def PHI_FADE : ℝ := PHI

/-- `const BREATH_SEC = 8.472 / PHI` (line 86). -/
noncomputable def BREATH_SEC : ℝ := 8.472 / PHI

/-- `const MAX_TOTAL_GAIN = 0.88` (line 88); rational, used by the
harmonic-bank arithmetic which is exact. -/
def MAX_TOTAL_GAIN : ℚ := 0.88

/-- `const WET_CAP = 0.33` (line 89). -/
def WET_CAP : ℝ := 0.33

/-- `const FB_MAX_GAIN = 0.11` (line 91). -/
def FB_MAX_GAIN : ℝ := 0.11

/- ═══════ preset tables (lines 99‑130) ═══════ -/

/-- `{ reverb, delay }` preset record; the table entries are small integers,
kept as rationals. -/
structure Preset where
  reverb : ℚ
  delay  : ℚ
deriving DecidableEq, Repr

/-- One row of `SpiralPresets` (lines 99‑107): a frequency band `[lo, hi]`
with its preset. -/
structure Band where
  lo : ℚ
  hi : ℚ
  preset : Preset
deriving DecidableEq, Repr

/-- `SpiralPresets` (lines 99‑107). -/
def SpiralPresets : List Band :=
  [ ⟨13,  21,  ⟨3,  2⟩⟩,
    ⟨21,  34,  ⟨5,  3⟩⟩,
    ⟨34,  55,  ⟨8,  5⟩⟩,
    ⟨55,  89,  ⟨13, 8⟩⟩,
    ⟨89,  144, ⟨21, 13⟩⟩,
    ⟨144, 233, ⟨34, 21⟩⟩,
    ⟨233, 377, ⟨55, 34⟩⟩ ]

/-- `phrasePresets` (lines 109‑119), as an association list in source order. -/
def phrasePresetList : List (String × Preset) :=
  [ ("Shoh Mek",        ⟨13, 8⟩),
    ("Mek Ka",          ⟨21, 13⟩),
    ("Ka Lah Mah Tor",  ⟨34, 21⟩),
    ("Lah Mah Tor Rah", ⟨55, 34⟩),
    ("Tha Voh Yah Zu",  ⟨89, 55⟩),
    ("Zor Shoh Mek Ka", ⟨8,  5⟩),
    ("Rah Voh Lah",     ⟨21, 13⟩),
    ("Kai Leh Shoh",    ⟨34, 21⟩),
    ("Zeh Mah Kor Lah", ⟨55, 34⟩) ]

/-- The property names a plain object literal inherits from
`Object.prototype` (ECMA-262: `constructor`, the conversion and
property-test methods, plus the Annex B legacy accessors and
`__proto__`).  A JavaScript member access `phrasePresets[k]` for one of
these names walks the prototype chain and yields the inherited member — a
function or object, non-nullish — rather than `undefined`. -/
def objectProtoKeys : List String :=
  ["constructor", "hasOwnProperty", "isPrototypeOf", "propertyIsEnumerable",
   "toLocaleString", "toString", "valueOf", "__proto__",
   "__defineGetter__", "__defineSetter__", "__lookupGetter__", "__lookupSetter__"]

/-- The three possible outcomes of the JavaScript member access
`phrasePresets[phrase]` on the object literal of lines 109‑119: an own
data property (one of the nine phrase entries), an inherited non-nullish
`Object.prototype` member (which carries no `reverb`/`delay` fields), or
`undefined`. -/
inductive JsLookup where
  | own : Preset → JsLookup
  | inherited : JsLookup
  | absent : JsLookup
deriving DecidableEq, Repr

/-- `phrasePresets[phrase]` with JavaScript prototype-chain semantics. -/
def phrasePresets (phrase : String) : JsLookup :=
  match (phrasePresetList.find? (fun p => p.1 == phrase)).map (·.2) with
  | some p => JsLookup.own p
  | none =>
    if phrase ∈ objectProtoKeys then JsLookup.inherited else JsLookup.absent

/-- `SpiralPresets.find(c => f >= c.min && f <= c.max)` (line 129): first
band whose (closed) range contains `f`.  The frequency is a real number, so
the comparison is classical. -/
noncomputable def findBand (f : ℝ) : List Band → Option Preset
  | [] => none
  | b :: rest => if (b.lo : ℝ) ≤ f ∧ f ≤ (b.hi : ℝ) then some b.preset else findBand f rest

/-- `presetFor` (lines 127‑130):
`phrasePresets[phrase ?? ""] ?? SpiralPresets.find(...) ?? default`.
For an inherited `Object.prototype` name the first operand is non-nullish,
so the `??` chain short-circuits and `presetFor` returns that inherited
member itself; its later `.reverb`/`.delay` accesses yield `undefined`, so
this outcome is modelled as `none`. -/
noncomputable def presetFor (f : ℝ) (phrase : String) : Option Preset :=
  match phrasePresets phrase with
  | JsLookup.own p => some p
  | JsLookup.inherited => none
  | JsLookup.absent => some ((findBand f SpiralPresets).getD ⟨3, 2⟩)

/- ═══════ JavaScript numeric semantics helpers ═══════ -/

/-- Truncation towards zero, as used by the JavaScript `%` operator. -/
noncomputable def jsTrunc (x : ℝ) : ℤ := if 0 ≤ x then ⌊x⌋ else ⌈x⌉

/-- JavaScript remainder `a % b` for finite `a` and `b > 0`: the result has
the sign of the dividend `a`. -/
noncomputable def jsRem (a b : ℝ) : ℝ := a - b * jsTrunc (a / b)

/-- `Math.sqrt`: `NaN` (modelled as `none`) on negative input. -/
noncomputable def jsSqrt (x : ℝ) : Option ℝ := if 0 ≤ x then some (Real.sqrt x) else none

/- ═══════ getKaiDynamicReverb (lines 142‑169) ═══════ -/

/-- The value of
`phrasePresets[phrase]?.reverb ?? presetFor(freq, phrase).reverb`
(line 149).  For an inherited `Object.prototype` name both operands are
`undefined` (`?.reverb` on the inherited member, then `.reverb` on the
member `presetFor` returns), modelled as `none`; the `undefined` becomes
`NaN` in the arithmetic that follows. -/
noncomputable def reverbPresetVal (freq : ℝ) (phrase : String) : Option ℚ :=
  match phrasePresets phrase with
  | JsLookup.own p => some p.reverb
  | _ => (presetFor freq phrase).map Preset.reverb

/-- The value of
`phrasePresets[phrase]?.delay ?? presetFor(freq, phrase).delay`
(line 173); `none` models `undefined` as above. -/
noncomputable def delayPresetVal (freq : ℝ) (phrase : String) : Option ℚ :=
  match phrasePresets phrase with
  | JsLookup.own p => some p.delay
  | _ => (presetFor freq phrase).map Preset.delay

/-- Lines 148‑162 of `getKaiDynamicReverb` for a defined preset value:
the weighted blend of the four normalized signals, before the sigmoid/sqrt
easing.  Factored out of `getKaiDynamicReverb` so that its sign can be
reasoned about (it is the argument of `Math.sqrt`). -/
noncomputable def kaiBlended (preset : ℚ) (freq kaiTime breathPhase : ℝ) : ℝ :=
  let freqNorm := min 1 (Real.log (freq + 1) / Real.log 377)
  let phraseNorm := min 1 ((preset : ℝ) / 89)
  let stepDuration := BREATH_SEC * 11
  let kaiNorm := jsRem kaiTime stepDuration / stepDuration
  let breathNorm := (Real.sin (breathPhase * 2 * Real.pi) + 1) / 2
  let wPhrase := PHI
  let wFreq : ℝ := 1
  let wBreath := 1 / PHI
  let wKai := 1 / (PHI * PHI)
  let weightSum := wPhrase + wFreq + wBreath + wKai
  (phraseNorm * wPhrase + freqNorm * wFreq + breathNorm * wBreath +
      kaiNorm * wKai) / weightSum

/-- `getKaiDynamicReverb(freq, phrase, kaiTime, breathPhase)`
(lines 142‑169), transcribed statement by statement.  Two `NaN` sources
are modelled by `Option` (`none` = `NaN`, which the JS `*`, `/`,
`Math.exp`, `Math.sqrt`, `Math.max` and `Math.min` all propagate): an
`undefined` preset value (inherited `Object.prototype` phrase names,
line 149) makes `phraseNorm = Math.min(1, NaN) = NaN` and hence the
result `NaN`; and `Math.sqrt(blended)` (line 165) is `NaN` when
`blended < 0`. -/
noncomputable def getKaiDynamicReverb (freq : ℝ) (phrase : String)
    (kaiTime breathPhase : ℝ) : Option ℝ :=
  (reverbPresetVal freq phrase).bind fun preset =>
    let blended := kaiBlended preset freq kaiTime breathPhase
    let sigmoid := 1 / (1 + Real.exp (-6 * (blended - 0.5)))
    (jsSqrt blended).map fun root =>
      min (WET_CAP * 0.995) (max 0.01 ((sigmoid * 0.55 + root * 0.45) * WET_CAP))

/- ═══════ getAutoDelay (lines 172‑179) ═══════ -/

/-- `getAutoDelay(freq, phrase, wet)` (lines 172‑179).  `none` = `NaN`:
an `undefined` base preset (inherited `Object.prototype` phrase names,
line 173) makes `baseSeconds = Math.min(NaN, 1.25) = NaN`, which reaches
the result through `Math.max(0.02, Math.min(NaN, 1.25)) = NaN`; and
`Math.sqrt(1 - wetRatio)` is `NaN` when `wet > WET_CAP`. -/
noncomputable def getAutoDelay (freq : ℝ) (phrase : String) (wet : ℝ) : Option ℝ :=
  (delayPresetVal freq phrase).bind fun basePreset =>
    let baseSeconds := min ((basePreset : ℝ) * 0.01) 1.25
    let wetR := wet / WET_CAP
    (jsSqrt (1 - wetR)).map fun factor =>
      max 0.02 (min (baseSeconds * (0.5 + factor)) 1.25)

/- ═══════ basic facts about the constants and tables ═══════ -/

theorem sqrt_five_lt : Real.sqrt 5 < 2.2361 := by
  nlinarith [Real.sq_sqrt (by norm_num : (5:ℝ) ≥ 0), Real.sqrt_nonneg 5]

theorem lt_sqrt_five : 2.236 < Real.sqrt 5 := by
  nlinarith [Real.sq_sqrt (by norm_num : (5:ℝ) ≥ 0), Real.sqrt_nonneg 5]

theorem PHI_lt : PHI < 1.61805 := by
  have h := sqrt_five_lt
  rw [PHI]; linarith

theorem lt_PHI : 1.618 < PHI := by
  have h := lt_sqrt_five
  rw [PHI]; linarith

theorem PHI_pos : 0 < PHI := by linarith [lt_PHI]

theorem BREATH_SEC_pos : 0 < BREATH_SEC := by
  rw [BREATH_SEC]
  exact div_pos (by norm_num) PHI_pos

/-- A preset found in the spiral band table belongs to the table. -/
theorem findBand_mem {f : ℝ} {b : Preset} :
    ∀ l : List Band, findBand f l = some b → b ∈ l.map Band.preset := by
  intro l
  induction l with
  | nil => intro h; simp [findBand] at h
  | cons x xs ih =>
    intro h
    rw [findBand] at h
    split at h
    · simp at h; simp [h]
    · simp [ih h]

/-- If the lookup hits an own entry, that entry is in the phrase table. -/
theorem phrasePresets_own_mem {phrase : String} {p : Preset}
    (h : phrasePresets phrase = JsLookup.own p) :
    ∃ q ∈ phrasePresetList, q.2 = p := by
  rw [phrasePresets] at h
  rcases hfind : phrasePresetList.find? (fun q => q.1 == phrase) with _ | q
  · rw [hfind] at h
    have h2 : (if phrase ∈ objectProtoKeys then JsLookup.inherited
        else JsLookup.absent) = JsLookup.own p := h
    split at h2 <;> simp at h2
  · rw [hfind] at h
    have h2 : JsLookup.own q.2 = JsLookup.own p := h
    injection h2 with h3
    exact ⟨q, List.mem_of_find?_eq_some hfind, h3⟩

/-- The lookup yields an inherited member exactly on `Object.prototype`
property names (for keys outside the phrase table). -/
theorem phrasePresets_inherited_mem {phrase : String}
    (h : phrasePresets phrase = JsLookup.inherited) :
    phrase ∈ objectProtoKeys := by
  rw [phrasePresets] at h
  rcases hfind : phrasePresetList.find? (fun q => q.1 == phrase) with _ | q
  · rw [hfind] at h
    have h2 : (if phrase ∈ objectProtoKeys then JsLookup.inherited
        else JsLookup.absent) = JsLookup.inherited := h
    by_cases hm : phrase ∈ objectProtoKeys
    · exact hm
    · rw [if_neg hm] at h2
      simp at h2
  · rw [hfind] at h
    have h2 : JsLookup.own q.2 = JsLookup.inherited := h
    simp at h2

/-- For every phrase that is not an inherited `Object.prototype` name the
reverb preset value used on line 149 is defined and positive. -/
theorem reverbPresetVal_of_not_proto (f : ℝ) (phrase : String)
    (hp : phrase ∉ objectProtoKeys) :
    ∃ r, reverbPresetVal f phrase = some r ∧ 0 < r := by
  rcases ho : phrasePresets phrase with p | _ | _
  · obtain ⟨q, hq, rfl⟩ := phrasePresets_own_mem ho
    refine ⟨q.2.reverb, ?_, ?_⟩
    · rw [reverbPresetVal, ho]
    · have hall : ∀ q ∈ phrasePresetList, 0 < q.2.reverb := by decide
      exact hall q hq
  · exact absurd (phrasePresets_inherited_mem ho) hp
  · refine ⟨((findBand f SpiralPresets).getD ⟨3, 2⟩).reverb, ?_, ?_⟩
    · rw [reverbPresetVal, ho, presetFor, ho]
      rfl
    · rcases hb : findBand f SpiralPresets with _ | b
      · simp [Option.getD]
      · have hall : ∀ q ∈ SpiralPresets.map Band.preset,
            0 < q.reverb ∧ 0 < q.delay := by decide
        simpa [Option.getD] using (hall b (findBand_mem SpiralPresets hb)).1

/-- For every phrase that is not an inherited `Object.prototype` name the
delay preset value used on line 173 is defined and positive. -/
theorem delayPresetVal_of_not_proto (f : ℝ) (phrase : String)
    (hp : phrase ∉ objectProtoKeys) :
    ∃ d, delayPresetVal f phrase = some d ∧ 0 < d := by
  rcases ho : phrasePresets phrase with p | _ | _
  · obtain ⟨q, hq, rfl⟩ := phrasePresets_own_mem ho
    refine ⟨q.2.delay, ?_, ?_⟩
    · rw [delayPresetVal, ho]
    · have hall : ∀ q ∈ phrasePresetList, 0 < q.2.delay := by decide
      exact hall q hq
  · exact absurd (phrasePresets_inherited_mem ho) hp
  · refine ⟨((findBand f SpiralPresets).getD ⟨3, 2⟩).delay, ?_, ?_⟩
    · rw [delayPresetVal, ho, presetFor, ho]
      rfl
    · rcases hb : findBand f SpiralPresets with _ | b
      · simp [Option.getD]
      · have hall : ∀ q ∈ SpiralPresets.map Band.preset,
            0 < q.reverb ∧ 0 < q.delay := by decide
        simpa [Option.getD] using (hall b (findBand_mem SpiralPresets hb)).2

/-- The JavaScript remainder of a non-negative dividend by a positive
divisor is non-negative. -/
theorem jsRem_nonneg {a b : ℝ} (ha : 0 ≤ a) (hb : 0 < b) : 0 ≤ jsRem a b := by
  have hdiv : 0 ≤ a / b := div_nonneg ha hb.le
  rw [jsRem, jsTrunc, if_pos hdiv]
  have hkey : a - b * (⌊a / b⌋ : ℝ) = b * Int.fract (a / b) := by
    rw [Int.fract]
    field_simp
  rw [hkey]
  exact mul_nonneg hb.le (Int.fract_nonneg _)

/-- For a non-negative preset value, `freq > 0` and `kaiTime ≥ 0` the
weighted blend of `getKaiDynamicReverb` is non-negative, so `Math.sqrt`
never sees a negative argument on this domain. -/
theorem kaiBlended_nonneg (preset : ℚ) (freq kaiTime breathPhase : ℝ)
    (hpre : 0 ≤ preset) (hf : 0 < freq) (hk : 0 ≤ kaiTime) :
    0 ≤ kaiBlended preset freq kaiTime breathPhase := by
  rw [kaiBlended]
  have hphi := PHI_pos
  have hphi2 : 0 < PHI * PHI := mul_pos hphi hphi
  have hinv : 0 < 1 / PHI := by positivity
  have hinv2 : 0 < 1 / (PHI * PHI) := by positivity
  have hstep : 0 < BREATH_SEC * 11 := mul_pos BREATH_SEC_pos (by norm_num)
  have hfreqNorm : 0 ≤ min (1:ℝ) (Real.log (freq + 1) / Real.log 377) := by
    apply le_min (by norm_num)
    apply div_nonneg
    · exact Real.log_nonneg (by linarith)
    · exact (Real.log_pos (by norm_num)).le
  have hphraseNorm : 0 ≤ min (1:ℝ) ((preset : ℝ) / 89) := by
    apply le_min (by norm_num)
    apply div_nonneg _ (by norm_num)
    exact_mod_cast hpre
  have hkaiNorm : 0 ≤ jsRem kaiTime (BREATH_SEC * 11) / (BREATH_SEC * 11) :=
    div_nonneg (jsRem_nonneg hk hstep) hstep.le
  have hbreathNorm : 0 ≤ (Real.sin (breathPhase * 2 * Real.pi) + 1) / 2 := by
    have := Real.neg_one_le_sin (breathPhase * 2 * Real.pi)
    linarith
  have hws : 0 < PHI + 1 + 1 / PHI + 1 / (PHI * PHI) := by linarith
  apply div_nonneg _ hws.le
  have h1 : 0 ≤ min (1:ℝ) ((preset : ℝ) / 89) * PHI :=
    mul_nonneg hphraseNorm hphi.le
  have h2 : 0 ≤ min (1:ℝ) (Real.log (freq + 1) / Real.log 377) * 1 :=
    mul_nonneg hfreqNorm (by norm_num)
  have h3 : 0 ≤ (Real.sin (breathPhase * 2 * Real.pi) + 1) / 2 * (1 / PHI) :=
    mul_nonneg hbreathNorm hinv.le
  have h4 : 0 ≤ jsRem kaiTime (BREATH_SEC * 11) / (BREATH_SEC * 11) * (1 / (PHI * PHI)) :=
    mul_nonneg hkaiNorm hinv2.le
  linarith

/-- On the domain `freq > 0`, `kaiTime ≥ 0`, phrase not an inherited
`Object.prototype` name, the reverb derivation returns a value (no `NaN`)
clamped into `[0.01, WET_CAP * 0.995]`; shared backbone of the wet-ratio
claims. -/
theorem getKaiDynamicReverb_some_bounds (freq : ℝ) (phrase : String)
    (kaiTime breathPhase : ℝ) (hf : 0 < freq) (hk : 0 ≤ kaiTime)
    (hp : phrase ∉ objectProtoKeys) :
    ∃ w, getKaiDynamicReverb freq phrase kaiTime breathPhase = some w ∧
      0.01 ≤ w ∧ w ≤ WET_CAP * 0.995 := by
  obtain ⟨r, hr, hrpos⟩ := reverbPresetVal_of_not_proto freq phrase hp
  have hb := kaiBlended_nonneg r freq kaiTime breathPhase hrpos.le hf hk
  rw [getKaiDynamicReverb, hr]
  simp only [Option.some_bind]
  rw [jsSqrt, if_pos hb, Option.map_some']
  refine ⟨_, rfl, ?_, min_le_left _ _⟩
  apply le_min
  · rw [WET_CAP]; norm_num
  · exact le_max_left _ _

/-- C1 fails as stated: at `phrase = "constructor"` — an unknown phrase
key, inherited from `Object.prototype` — the program computes
`phrasePresets["constructor"]?.reverb` as `undefined`, `presetFor` returns
the inherited member (the `??` chain short-circuits on the non-nullish
function) whose `.reverb` is again `undefined`, so `phraseNorm =
Math.min(1, NaN) = NaN` and the result is `NaN` (modelled as `none`) even
at `clockValue = 0`, violating the claimed bounds. -/
theorem C1_counterexample :
    getKaiDynamicReverb 440 "constructor" 0 0 = none := by
  have hph : phrasePresets "constructor" = JsLookup.inherited := by decide
  have hr : reverbPresetVal 440 "constructor" = none := by
    rw [reverbPresetVal, hph, presetFor, hph]
    rfl
  rw [getKaiDynamicReverb, hr]
  rfl

/-- C1 amended: for every frequency `freq > 0`, every `clockValue ≥ 0`,
every `breathPhase ∈ [0,1)` and every phrase key — known or unknown —
*except* the twelve inherited `Object.prototype` property names (on which
the preset lookup yields `undefined` and the function returns `NaN`), the
wet ratio satisfies `0.01 ≤ result ≤ WET_CAP * 0.995` with
`WET_CAP = 0.33`. -/
theorem C1_wet_ratio_bounds (freq : ℝ) (phrase : String) (kaiTime breathPhase : ℝ)
    (hf : 0 < freq) (hk : 0 ≤ kaiTime) (hb0 : 0 ≤ breathPhase) (hb1 : breathPhase < 1)
    (hp : phrase ∉ objectProtoKeys) :
    ∃ w, getKaiDynamicReverb freq phrase kaiTime breathPhase = some w ∧
      0.01 ≤ w ∧ w ≤ WET_CAP * 0.995 :=
  getKaiDynamicReverb_some_bounds freq phrase kaiTime breathPhase hf hk hp

/-- Witness for the amended C1 at a concrete input. -/
theorem C1_wet_ratio_bounds_witness :
    ∃ w, getKaiDynamicReverb 432 "Shoh Mek" 0 0 = some w ∧
      0.01 ≤ w ∧ w ≤ WET_CAP * 0.995 :=
  C1_wet_ratio_bounds 432 "Shoh Mek" 0 0 (by norm_num) le_rfl le_rfl (by norm_num)
    (by decide)

/-- C2 fails as stated: at `freq = 1/100`, an unknown (plain) phrase,
`clockValue = -(BREATH_SEC * 11 / 2)` (a negative clock value) and
`breathPhase = 3/4`, the blended signal is negative, `Math.sqrt` returns
`NaN`, and `getKaiDynamicReverb` returns `NaN` (modelled as `none`) — not a
finite number. -/
theorem C2_counterexample :
    getKaiDynamicReverb (1/100) "Unknown" (-(BREATH_SEC * 11 / 2)) (3/4) = none := by
  have hphi := PHI_pos
  have hphi2 : 0 < PHI * PHI := mul_pos hphi hphi
  have hstep : 0 < BREATH_SEC * 11 := mul_pos BREATH_SEC_pos (by norm_num)
  have hstepne : BREATH_SEC * 11 ≠ 0 := ne_of_gt hstep
  -- kaiTime % stepDuration for the negative dividend: the result keeps the
  -- sign of the dividend.
  have hdivval : -(BREATH_SEC * 11 / 2) / (BREATH_SEC * 11) = -(1/2 : ℝ) := by
    field_simp
    ring
  have htrunc : jsTrunc (-(1/2 : ℝ)) = 0 := by
    rw [jsTrunc, if_neg (by norm_num)]
    rw [Int.ceil_eq_iff]
    constructor <;> norm_num
  have hkaiNorm : jsRem (-(BREATH_SEC * 11 / 2)) (BREATH_SEC * 11) / (BREATH_SEC * 11)
      = -(1/2 : ℝ) := by
    rw [jsRem, hdivval, htrunc]
    push_cast
    rw [mul_zero, sub_zero, hdivval]
  -- the phrase is an ordinary unknown string (not an Object.prototype
  -- name) and the frequency is below every spiral band, so the preset
  -- falls back to the default reverb value 3
  have hphrase : phrasePresets "Unknown" = JsLookup.absent := by decide
  have hband : findBand (1/100 : ℝ) SpiralPresets = none := by
    simp only [SpiralPresets, findBand]
    norm_num
  have hrpv : reverbPresetVal (1/100) "Unknown" = some 3 := by
    rw [reverbPresetVal, hphrase, presetFor, hphrase, hband]
    rfl
  -- sin(3/4 · 2π) = −1, so the breath term vanishes
  have hsin : Real.sin ((3/4 : ℝ) * 2 * Real.pi) = -1 := by
    have h : (3/4 : ℝ) * 2 * Real.pi = Real.pi/2 + Real.pi := by ring
    rw [h, Real.sin_add_pi, Real.sin_pi_div_two]
  -- the blended signal is negative
  have hblend : kaiBlended 3 (1/100) (-(BREATH_SEC * 11 / 2)) (3/4) < 0 := by
    rw [kaiBlended]
    rw [hkaiNorm, hsin]
    apply div_neg_of_neg_of_pos
    · have e1 : min (1:ℝ) (((3:ℚ):ℝ)/89) ≤ 3/89 := by
        push_cast
        exact min_le_right _ _
      have hlog1 : Real.log ((1:ℝ)/100 + 1) ≤ 0.01 := by
        have h101 : ((1:ℝ)/100 + 1) = 1.01 := by norm_num
        rw [h101]
        have := Real.log_le_sub_one_of_pos (by norm_num : (0:ℝ) < 1.01)
        linarith
      have hlog1nn : 0 ≤ Real.log ((1:ℝ)/100 + 1) :=
        Real.log_nonneg (by norm_num)
      have hlog377 : (5:ℝ) ≤ Real.log 377 := by
        rw [show (5:ℝ) = ((5:ℕ):ℝ) * 1 by norm_num] at *
        have hexp : Real.exp (((5:ℕ):ℝ) * 1) = (Real.exp 1)^(5:ℕ) :=
          Real.exp_nat_mul 1 5
        have hb : (Real.exp 1)^(5:ℕ) < 2.7182818286^(5:ℕ) :=
          pow_lt_pow_left Real.exp_one_lt_d9 (Real.exp_pos 1).le (by norm_num)
        have : Real.exp (((5:ℕ):ℝ) * 1) < 377 := by
          rw [hexp]
          calc (Real.exp 1)^(5:ℕ) < 2.7182818286^(5:ℕ) := hb
          _ < 377 := by norm_num
        exact (Real.le_log_iff_exp_le (by norm_num : (0:ℝ) < 377)).mpr this.le
      have e2 : min (1:ℝ) (Real.log ((1:ℝ)/100 + 1) / Real.log 377) ≤ 0.002 := by
        refine le_trans (min_le_right _ _) ?_
        calc Real.log ((1:ℝ)/100 + 1) / Real.log 377
            ≤ 0.01 / 5 := by
              apply div_le_div (by norm_num) hlog1 (by norm_num) hlog377
          _ = 0.002 := by norm_num
      have e3 : (0.38195:ℝ) < 1/(PHI*PHI) := by
        rw [lt_div_iff hphi2]
        nlinarith [PHI_lt, lt_PHI]
      have e4 : min (1:ℝ) (((3:ℚ):ℝ)/89) * PHI ≤ 3/89 * 1.61805 := by
        calc min (1:ℝ) (((3:ℚ):ℝ)/89) * PHI ≤ 3/89 * PHI :=
              mul_le_mul_of_nonneg_right e1 hphi.le
          _ ≤ 3/89 * 1.61805 := by nlinarith [PHI_lt]
      have hphiinv : 0 < 1 / PHI := by positivity
      nlinarith [e2, e3, e4]
    · have hinv : 0 < 1 / PHI := by positivity
      have hinv2 : 0 < 1 / (PHI * PHI) := by positivity
      linarith
  rw [getKaiDynamicReverb, hrpv]
  simp only [Option.some_bind]
  rw [jsSqrt, if_neg (not_le.mpr hblend)]
  rfl

/-- C2 amended: `getKaiDynamicReverb` returns a finite number for every
`freq > 0`, every `clockValue ≥ 0` (the declared domain of the external
clock), every real `breathPhase`, and every phrase except the inherited
`Object.prototype` property names (on which the preset value is
`undefined` and the result is `NaN` for every clock value). -/
theorem C2_total_on_nonneg_clock (freq : ℝ) (phrase : String)
    (kaiTime breathPhase : ℝ) (hf : 0 < freq) (hk : 0 ≤ kaiTime)
    (hp : phrase ∉ objectProtoKeys) :
    (getKaiDynamicReverb freq phrase kaiTime breathPhase).isSome := by
  obtain ⟨w, hw, -, -⟩ :=
    getKaiDynamicReverb_some_bounds freq phrase kaiTime breathPhase hf hk hp
  rw [hw]
  rfl

/-- Witness for the amended C2 at a concrete input. -/
theorem C2_total_on_nonneg_clock_witness :
    (getKaiDynamicReverb 53.8 "Rah Voh Lah" 7 (1/3)).isSome :=
  C2_total_on_nonneg_clock 53.8 "Rah Voh Lah" 7 (1/3) (by norm_num) (by norm_num)
    (by decide)

/-- C3 fails as stated: at `phrase = "constructor"` the base delay preset
is `undefined` (the inherited `Object.prototype` member carries no
`.delay`), so `baseSeconds = Math.min(undefined * 0.01, 1.25) = NaN` and
`getAutoDelay` returns `NaN` (modelled as `none`) — outside the claimed
`[0.02, 1.25]` — even for `wet` well inside `[0, WET_CAP]`. -/
theorem C3_counterexample :
    getAutoDelay 100 "constructor" (1/10) = none := by
  have hph : phrasePresets "constructor" = JsLookup.inherited := by decide
  have hd : delayPresetVal 100 "constructor" = none := by
    rw [delayPresetVal, hph, presetFor, hph]
    rfl
  rw [getAutoDelay, hd]
  rfl

/-- C3 amended: for every fixed `freq > 0` and every phrase except the
inherited `Object.prototype` property names (on which the delay preset is
`undefined` and the result is `NaN`), `getAutoDelay` is monotonically
non-increasing as `wet` increases over `[0, WET_CAP]`, and its result
always lies in `[0.02, 1.25]` seconds. -/
theorem C3_delay_monotone_bounds (freq : ℝ) (phrase : String) (w₁ w₂ : ℝ)
    (h0 : 0 ≤ w₁) (h12 : w₁ ≤ w₂) (hcap : w₂ ≤ WET_CAP)
    (hp : phrase ∉ objectProtoKeys) :
    ∃ d₁ d₂, getAutoDelay freq phrase w₁ = some d₁ ∧
      getAutoDelay freq phrase w₂ = some d₂ ∧ d₂ ≤ d₁ ∧
      0.02 ≤ d₁ ∧ d₁ ≤ 1.25 ∧ 0.02 ≤ d₂ ∧ d₂ ≤ 1.25 := by
  obtain ⟨d, hd, hdpos⟩ := delayPresetVal_of_not_proto freq phrase hp
  have hC : (0:ℝ) < WET_CAP := by rw [WET_CAP]; norm_num
  have hg1 : 0 ≤ 1 - w₁ / WET_CAP := by
    rw [sub_nonneg, div_le_one hC]
    linarith
  have hg2 : 0 ≤ 1 - w₂ / WET_CAP := by
    rw [sub_nonneg, div_le_one hC]
    linarith
  have hB : 0 ≤ min ((d : ℝ) * 0.01) 1.25 := by
    apply le_min _ (by norm_num)
    have : (0:ℝ) ≤ (d : ℝ) := by exact_mod_cast hdpos.le
    linarith
  have hsq : Real.sqrt (1 - w₂ / WET_CAP) ≤ Real.sqrt (1 - w₁ / WET_CAP) := by
    apply Real.sqrt_le_sqrt
    have : w₁ / WET_CAP ≤ w₂ / WET_CAP := (div_le_div_right hC).mpr h12
    linarith
  simp only [getAutoDelay]
  rw [hd]
  simp only [Option.some_bind, jsSqrt]
  rw [if_pos hg1, if_pos hg2]
  simp only [Option.map_some']
  refine ⟨_, _, rfl, rfl, ?_, le_max_left _ _,
    max_le (by norm_num) (min_le_right _ _), le_max_left _ _,
    max_le (by norm_num) (min_le_right _ _)⟩
  apply max_le_max le_rfl
  apply min_le_min _ le_rfl
  apply mul_le_mul_of_nonneg_left _ hB
  linarith

/-- Witness for the amended C3 at a concrete input. -/
theorem C3_delay_monotone_bounds_witness :
    ∃ d₁ d₂, getAutoDelay 100 "Mek Ka" 0.1 = some d₁ ∧
      getAutoDelay 100 "Mek Ka" 0.2 = some d₂ ∧ d₂ ≤ d₁ ∧
      0.02 ≤ d₁ ∧ d₁ ≤ 1.25 ∧ 0.02 ≤ d₂ ∧ d₂ ≤ 1.25 :=
  C3_delay_monotone_bounds 100 "Mek Ka" 0.1 0.2 (by norm_num) (by norm_num)
    (by rw [WET_CAP]; norm_num) (by decide)

/- ═══════ harmonic bank (lines 121‑125, 324‑332, 854‑898) ═══════ -/

/-- Fibonacci values starting from seeds `a`, `b`, of the given length. -/
def fibFrom (a b : ℕ) : ℕ → List ℕ
  | 0 => []
  | k + 1 => a :: fibFrom b (a + b) k

/-- `fibonacci(n)` (lines 121‑125): the source starts from `[1, 1]` and
pushes `seq[i-1] + seq[i-2]` for `i = 2 .. n-1`, so the result has length
`max 2 n`. -/
def fibonacci (n : ℕ) : List ℕ := fibFrom 1 1 (max 2 n)

/-- Whether an oscillator was derived from the overtone (`frequency * n`)
or the undertone (`frequency / n`) branch of the loop at lines 874‑898. -/
inductive Role where
  | overtone : Role
  | undertone : Role
deriving DecidableEq, Repr

/-- One oscillator created by `makeSpatial`/`makeStereo`: its frequency
(`o.frequency.value`), its envelope target gain (the `amp` argument of the
cosine fade curve) and its role.  The oscillator frequencies and gains are
exact rationals in the source, so they are modelled in `ℚ`. -/
structure Osc where
  freqHz : ℚ
  gain : ℚ
  role : Role
deriving DecidableEq, Repr

/-- `harmonicGainTotal.over` (line 856): `fibonacci(N).reduce((sum, _, i)
=> sum + 0.034 / (i + 1), 0)` — a sum over the indices of the series. -/
def harmonicGainTotalOver (N : ℕ) : ℚ :=
  (((fibonacci N).enum).map fun p => (0.034 : ℚ) / ((p.1 : ℚ) + 1)).sum

/-- `harmonicGainTotal.under` (line 857). -/
def harmonicGainTotalUnder (N : ℕ) : ℚ :=
  (((fibonacci N).enum).map fun p => (0.021 : ℚ) / ((p.1 : ℚ) + 1)).sum

/-- `norm.over(0.034 / (i + 1))` (lines 860, 887): the gain of the `i`-th
overtone entry. -/
def overAmp (N i : ℕ) : ℚ :=
  (0.034 : ℚ) / ((i : ℚ) + 1) / harmonicGainTotalOver N * (MAX_TOTAL_GAIN / 2)

/-- `norm.under(0.021 / (i + 1))` (lines 861, 888): the gain of the `i`-th
undertone entry. -/
def underAmp (N i : ℕ) : ℚ :=
  (0.021 : ℚ) / ((i : ℚ) + 1) / harmonicGainTotalUnder N * (MAX_TOTAL_GAIN / 2)

/-- The oscillators created by the `fibonacci(dyn.harmonics).forEach` loop
(lines 874‑898), with the `EASE_MODE` refinements at their shipped `false`
values (`JUST_INTONATION_SNAP` and `CRITICAL_BAND_GAIN_SPREAD` are off, so
`gainSpread` is the identity and no frequency snapping happens):
an overtone at `frequency * n` is kept iff it is strictly below the Nyquist
frequency `sr / 2`; an undertone at `frequency / n` is kept iff it is
strictly above 20 Hz; in binaural mode each kept entry spawns a pair of
oscillators at `± half` (with `half = dyn.offset / 2`, line 775), each
carrying the full entry gain. -/
def buildOscs (frequency sr half : ℚ) (N : ℕ) (binaural : Bool) : List Osc :=
  ((fibonacci N).enum).bind fun p =>
    (if frequency * p.2 < sr / 2 then
      (if binaural then
        [⟨frequency * p.2 - half, overAmp N p.1, Role.overtone⟩,
         ⟨frequency * p.2 + half, overAmp N p.1, Role.overtone⟩]
       else [⟨frequency * p.2, overAmp N p.1, Role.overtone⟩])
     else [])
    ++ (if 20 < frequency / p.2 then
      (if binaural then
        [⟨frequency / p.2 - half, underAmp N p.1, Role.undertone⟩,
         ⟨frequency / p.2 + half, underAmp N p.1, Role.undertone⟩]
       else [⟨frequency / p.2, underAmp N p.1, Role.undertone⟩])
     else [])

/-- Total of the envelope gains of a list of oscillators. -/
def gainSum (l : List Osc) : ℚ := (l.map Osc.gain).sum

/-- `Math.round` on an exact rational (rounds half away from zero for the
positive values used here). -/
def jsRound (x : ℚ) : ℤ := ⌊x + 1/2⌋

/-- `dyn` (lines 324‑332): the harmonic bucket `(harmonics, offset)` chosen
by frequency band, shaved to 80 % (never below 5) on low-end devices. -/
def dyn (frequency : ℚ) (lowEnd : Bool) : ℕ × ℚ :=
  let base : ℕ × ℚ :=
    if frequency < 34 then (5, 3)
    else if frequency < 89 then (8, 5)
    else if frequency < 233 then (13, 8)
    else (21, 13)
  if lowEnd then (max 5 (jsRound ((base.1 : ℚ) * 0.8)).toNat, base.2) else base

/- ═══════ list-sum helper lemmas ═══════ -/

theorem gainSum_bind (l : List (ℕ × ℕ)) (g : ℕ × ℕ → List Osc) :
    gainSum (l.bind g) = (l.map fun p => gainSum (g p)).sum := by
  induction l with
  | nil => rfl
  | cons x xs ih =>
    simp only [List.cons_bind, gainSum, List.map_append, List.sum_append, List.map_cons,
      List.sum_cons] at *
    rw [ih]

theorem sum_map_div_mul (l : List (ℕ × ℕ)) (g : ℕ × ℕ → ℚ) (T c : ℚ) :
    (l.map fun p => g p / T * c).sum = (l.map g).sum / T * c := by
  induction l with
  | nil => simp
  | cons x xs ih =>
    simp only [List.map_cons, List.sum_cons, ih, add_div, add_mul]

theorem sum_map_add_split (l : List (ℕ × ℕ)) (f g : ℕ × ℕ → ℚ) :
    (l.map fun p => f p + g p).sum = (l.map f).sum + (l.map g).sum := by
  induction l with
  | nil => simp
  | cons x xs ih =>
    simp only [List.map_cons, List.sum_cons, ih]
    ring

theorem sum_map_mul_const (l : List (ℕ × ℕ)) (g : ℕ × ℕ → ℚ) (c : ℚ) :
    (l.map fun p => g p * c).sum = (l.map g).sum * c := by
  induction l with
  | nil => simp
  | cons x xs ih =>
    simp only [List.map_cons, List.sum_cons, ih, add_mul]

theorem fibonacci_ne_nil (N : ℕ) : fibonacci N ≠ [] := by
  rw [fibonacci]
  have h2 : max 2 N ≠ 0 := Nat.ne_of_gt (lt_of_lt_of_le (by norm_num) (le_max_left 2 N))
  obtain ⟨k, hk⟩ := Nat.exists_eq_succ_of_ne_zero h2
  rw [hk, fibFrom]
  exact List.cons_ne_nil _ _

theorem enum_fibonacci_ne_nil (N : ℕ) : (fibonacci N).enum ≠ [] := by
  intro h
  have := congrArg List.length h
  rw [List.enum_length] at this
  exact fibonacci_ne_nil N (List.length_eq_zero.mp this)

theorem harmonicGainTotalOver_pos (N : ℕ) : 0 < harmonicGainTotalOver N := by
  rw [harmonicGainTotalOver]
  apply List.sum_pos
  · intro x hx
    obtain ⟨p, _, rfl⟩ := List.mem_map.mp hx
    positivity
  · intro h
    exact enum_fibonacci_ne_nil N (List.map_eq_nil.mp h)

theorem harmonicGainTotalUnder_pos (N : ℕ) : 0 < harmonicGainTotalUnder N := by
  rw [harmonicGainTotalUnder]
  apply List.sum_pos
  · intro x hx
    obtain ⟨p, _, rfl⟩ := List.mem_map.mp hx
    positivity
  · intro h
    exact enum_fibonacci_ne_nil N (List.map_eq_nil.mp h)

/-- The overtone entry gains of a full (unfiltered) series always sum to
`MAX_TOTAL_GAIN / 2`, whatever the series length. -/
theorem sum_overAmp (N : ℕ) :
    (((fibonacci N).enum).map fun p => overAmp N p.1).sum = MAX_TOTAL_GAIN / 2 := by
  simp only [overAmp]
  rw [sum_map_div_mul ((fibonacci N).enum) (fun p => (0.034 : ℚ) / ((p.1 : ℚ) + 1))
    (harmonicGainTotalOver N) (MAX_TOTAL_GAIN / 2)]
  rw [show (((fibonacci N).enum).map fun p => (0.034 : ℚ) / ((p.1 : ℚ) + 1)).sum
      = harmonicGainTotalOver N from rfl]
  rw [div_self (ne_of_gt (harmonicGainTotalOver_pos N)), one_mul]

/-- The undertone entry gains of a full (unfiltered) series always sum to
`MAX_TOTAL_GAIN / 2`. -/
theorem sum_underAmp (N : ℕ) :
    (((fibonacci N).enum).map fun p => underAmp N p.1).sum = MAX_TOTAL_GAIN / 2 := by
  simp only [underAmp]
  rw [sum_map_div_mul ((fibonacci N).enum) (fun p => (0.021 : ℚ) / ((p.1 : ℚ) + 1))
    (harmonicGainTotalUnder N) (MAX_TOTAL_GAIN / 2)]
  rw [show (((fibonacci N).enum).map fun p => (0.021 : ℚ) / ((p.1 : ℚ) + 1)).sum
      = harmonicGainTotalUnder N from rfl]
  rw [div_self (ne_of_gt (harmonicGainTotalUnder_pos N)), one_mul]

/-- C4 amended: for every series length `N ∈ {5, 8, 13, 21}` and every base
frequency **such that no entry is discarded** (every overtone is below the
Nyquist limit and every undertone is above 20 Hz), the sum of the gains of
the generated entries equals `MAX_TOTAL_GAIN = 0.88` exactly, independent
of `N`; in binaural mode each kept entry spawns a pair of oscillators each
carrying the full entry gain, so the oscillator-gain total is
`2 * MAX_TOTAL_GAIN`, not `MAX_TOTAL_GAIN`.  When Nyquist/subsonic
filtering discards entries the sum is smaller (see the counterexample). -/
theorem C4_gain_sum_unfiltered (frequency sr half : ℚ) (N : ℕ)
    (hN : N = 5 ∨ N = 8 ∨ N = 13 ∨ N = 21)
    (hkeep : ∀ p ∈ (fibonacci N).enum,
      frequency * p.2 < sr / 2 ∧ 20 < frequency / p.2) :
    gainSum (buildOscs frequency sr half N false) = MAX_TOTAL_GAIN ∧
    gainSum (buildOscs frequency sr half N true) = 2 * MAX_TOTAL_GAIN := by
  constructor
  · rw [buildOscs, gainSum_bind]
    have hcong : (((fibonacci N).enum).map fun p => gainSum
          ((if frequency * p.2 < sr / 2 then
              (if (false : Bool) then
                [⟨frequency * p.2 - half, overAmp N p.1, Role.overtone⟩,
                 ⟨frequency * p.2 + half, overAmp N p.1, Role.overtone⟩]
               else [⟨frequency * p.2, overAmp N p.1, Role.overtone⟩])
             else [])
            ++ (if 20 < frequency / p.2 then
              (if (false : Bool) then
                [⟨frequency / p.2 - half, underAmp N p.1, Role.undertone⟩,
                 ⟨frequency / p.2 + half, underAmp N p.1, Role.undertone⟩]
               else [⟨frequency / p.2, underAmp N p.1, Role.undertone⟩])
             else [])))
        = (((fibonacci N).enum).map fun p => overAmp N p.1 + underAmp N p.1) := by
      apply List.map_congr_left
      intro p hp
      rw [if_pos (hkeep p hp).1, if_pos (hkeep p hp).2]
      simp [gainSum]
    rw [hcong, sum_map_add_split, sum_overAmp, sum_underAmp]
    ring
  · rw [buildOscs, gainSum_bind]
    have hcong : (((fibonacci N).enum).map fun p => gainSum
          ((if frequency * p.2 < sr / 2 then
              (if (true : Bool) then
                [⟨frequency * p.2 - half, overAmp N p.1, Role.overtone⟩,
                 ⟨frequency * p.2 + half, overAmp N p.1, Role.overtone⟩]
               else [⟨frequency * p.2, overAmp N p.1, Role.overtone⟩])
             else [])
            ++ (if 20 < frequency / p.2 then
              (if (true : Bool) then
                [⟨frequency / p.2 - half, underAmp N p.1, Role.undertone⟩,
                 ⟨frequency / p.2 + half, underAmp N p.1, Role.undertone⟩]
               else [⟨frequency / p.2, underAmp N p.1, Role.undertone⟩])
             else [])))
        = (((fibonacci N).enum).map fun p => (overAmp N p.1 + underAmp N p.1) * 2) := by
      apply List.map_congr_left
      intro p hp
      rw [if_pos (hkeep p hp).1, if_pos (hkeep p hp).2]
      simp [gainSum]
      ring
    rw [hcong, sum_map_mul_const, sum_map_add_split, sum_overAmp, sum_underAmp]
    ring

/-- Witness for the amended C4 at a concrete unfiltered input
(`frequency = 101`, `sampleRate = 96000`, `N = 5`). -/
theorem C4_gain_sum_unfiltered_witness :
    gainSum (buildOscs 101 96000 (3/2) 5 false) = MAX_TOTAL_GAIN ∧
    gainSum (buildOscs 101 96000 (3/2) 5 true) = 2 * MAX_TOTAL_GAIN :=
  C4_gain_sum_unfiltered 101 96000 (3/2) 5 (Or.inl rfl) (by
    intro p hp
    rw [show (fibonacci 5).enum = [(0,1),(1,1),(2,2),(3,3),(4,5)] from rfl] at hp
    fin_cases hp <;> norm_num)

/-- C4 fails as stated: at `frequency = 30` (so `N = 5`, `offset = 3` per
`dyn`) with a 96 kHz context and non-binaural mode, the three undertones at
15 Hz, 10 Hz and 6 Hz are discarded by the subsonic guard and their gain is
not redistributed, so the total gain falls short of `MAX_TOTAL_GAIN = 0.88`
by more than 0.1 — far beyond any floating-point tolerance. -/
theorem C4_counterexample :
    gainSum (buildOscs 30 96000 (3/2) 5 false) ≠ MAX_TOTAL_GAIN ∧
    1/10 < MAX_TOTAL_GAIN - gainSum (buildOscs 30 96000 (3/2) 5 false) := by
  have hfib : (fibonacci 5).enum = [(0,1),(1,1),(2,2),(3,3),(4,5)] := rfl
  have hb : buildOscs 30 96000 (3/2) 5 false =
      [⟨30, overAmp 5 0, Role.overtone⟩, ⟨30, underAmp 5 0, Role.undertone⟩,
       ⟨30, overAmp 5 1, Role.overtone⟩, ⟨30, underAmp 5 1, Role.undertone⟩,
       ⟨60, overAmp 5 2, Role.overtone⟩,
       ⟨90, overAmp 5 3, Role.overtone⟩,
       ⟨150, overAmp 5 4, Role.overtone⟩] := by
    rw [buildOscs, hfib]
    norm_num [List.cons_bind, List.nil_bind]
  have hsum : gainSum (buildOscs 30 96000 (3/2) 5 false) = 2497/3425 := by
    rw [hb]
    norm_num [gainSum, overAmp, underAmp, harmonicGainTotalOver,
      harmonicGainTotalUnder, hfib, MAX_TOTAL_GAIN]
  rw [hsum, MAX_TOTAL_GAIN]
  norm_num

/-- C5 amended: with `half = dyn.offset / 2 ≥ 0`: in non-binaural mode
every overtone-derived oscillator is strictly below the Nyquist frequency
and every undertone-derived oscillator is strictly above 20 Hz; in binaural
mode the two oscillators of a kept entry sit at `entry ± half`, so the
bounds weaken by `half` on each side.  (The source applies no Nyquist check
to undertones and the binaural offset is applied after the checks, so the
claim's unqualified bounds fail — see the counterexample.) -/
theorem C5_osc_frequency_bounds (frequency sr half : ℚ) (N : ℕ) (hhalf : 0 ≤ half) :
    (∀ o ∈ buildOscs frequency sr half N false,
      (o.role = Role.overtone → o.freqHz < sr / 2) ∧
      (o.role = Role.undertone → 20 < o.freqHz)) ∧
    (∀ o ∈ buildOscs frequency sr half N true,
      (o.role = Role.overtone → o.freqHz < sr / 2 + half) ∧
      (o.role = Role.undertone → 20 - half < o.freqHz)) := by
  constructor
  · intro o ho
    rw [buildOscs, List.mem_bind] at ho
    obtain ⟨p, -, ho⟩ := ho
    rw [List.mem_append] at ho
    rcases ho with ho | ho
    · by_cases hc : frequency * p.2 < sr / 2
      · rw [if_pos hc] at ho
        simp at ho
        subst ho
        exact ⟨fun _ => hc, fun hr => nomatch hr⟩
      · rw [if_neg hc] at ho
        simp at ho
    · by_cases hc : (20:ℚ) < frequency / p.2
      · rw [if_pos hc] at ho
        simp at ho
        subst ho
        exact ⟨(fun hr => nomatch hr), fun _ => hc⟩
      · rw [if_neg hc] at ho
        simp at ho
  · intro o ho
    rw [buildOscs, List.mem_bind] at ho
    obtain ⟨p, -, ho⟩ := ho
    rw [List.mem_append] at ho
    rcases ho with ho | ho
    · by_cases hc : frequency * p.2 < sr / 2
      · rw [if_pos hc] at ho
        simp at ho
        rcases ho with rfl | rfl
        · exact ⟨fun _ => by simp only [Osc.freqHz]; linarith,
            fun hr => nomatch hr⟩
        · exact ⟨fun _ => by simp only [Osc.freqHz]; linarith,
            fun hr => nomatch hr⟩
      · rw [if_neg hc] at ho
        simp at ho
    · by_cases hc : (20:ℚ) < frequency / p.2
      · rw [if_pos hc] at ho
        simp at ho
        rcases ho with rfl | rfl
        · exact ⟨(fun hr => nomatch hr),
            fun _ => by simp only [Osc.freqHz]; linarith⟩
        · exact ⟨(fun hr => nomatch hr),
            fun _ => by simp only [Osc.freqHz]; linarith⟩
      · rw [if_neg hc] at ho
        simp at ho

/-- Witness for the amended C5 at a concrete input. -/
theorem C5_osc_frequency_bounds_witness :
    (∀ o ∈ buildOscs 21 96000 (3/2) 5 false,
      (o.role = Role.overtone → o.freqHz < 96000 / 2) ∧
      (o.role = Role.undertone → 20 < o.freqHz)) ∧
    (∀ o ∈ buildOscs 21 96000 (3/2) 5 true,
      (o.role = Role.overtone → o.freqHz < 96000 / 2 + 3/2) ∧
      (o.role = Role.undertone → 20 - 3/2 < o.freqHz)) :=
  C5_osc_frequency_bounds 21 96000 (3/2) 5 (by norm_num)

/-- C5 fails as stated, in two ways.  First: at `frequency = 21` (`N = 5`,
`half = 3/2` from `dyn`) in binaural mode, the kept undertone entry at
21 Hz spawns an oscillator at `21 - 1.5 = 19.5 ≤ 20` Hz.  Second: the
undertone branch performs no Nyquist check, so at `frequency = 25000` with
a 48 kHz context (`N = 21`, `half = 13/2`) even non-binaural mode creates
an undertone-derived oscillator at 25000 Hz, at or above `sampleRate/2`. -/
theorem C5_counterexample :
    (∃ o ∈ buildOscs 21 96000 (3/2) 5 true,
      o.role = Role.undertone ∧ o.freqHz ≤ 20) ∧
    (∃ o ∈ buildOscs 25000 48000 (13/2) 21 false, 48000 / 2 ≤ o.freqHz) := by
  constructor
  · refine ⟨⟨39/2, underAmp 5 0, Role.undertone⟩, ?_, rfl, by norm_num⟩
    rw [buildOscs]
    apply List.mem_bind.mpr
    refine ⟨(0, 1), ?_, ?_⟩
    · rw [show (fibonacci 5).enum = [(0,1),(1,1),(2,2),(3,3),(4,5)] from rfl]
      simp
    · norm_num
  · refine ⟨⟨25000, underAmp 21 0, Role.undertone⟩, ?_, by norm_num⟩
    rw [buildOscs]
    apply List.mem_bind.mpr
    refine ⟨(0, 1), ?_, ?_⟩
    · rw [show (fibonacci 21).enum
          = (0, 1) :: List.enumFrom 1 (fibFrom 1 2 20) from rfl]
      exact List.mem_cons_self _ _
    · norm_num

/- ═══════ delay feedback loop (lines 727‑747) ═══════ -/

/-- Modelled from the spec: the delay/feedback module comes from
`createFeedbackFilter` (`src/utils/createFeedbackFilter`, not part of this
snapshot); per the spec its feedback gain is "hard-capped below unity", and
the capping itself is in `play()`: line 737 clamps the intrinsic gain with
`setValueAtTime(min(value, FB_MAX_GAIN))`, so the intrinsic gain is taken
here as an arbitrary `g0`.  A Web Audio `AudioParam`'s effective value is
its intrinsic value plus the sum of its inputs: the constant source
`baseFB` (offset `min(0.18, FB_MAX_GAIN)`, line 732, re-capped at
`FB_MAX_GAIN` on line 736) and the breath LFO (a sine in `[-1, 1]`) scaled
by `depthFB = 0.015 * perfScale` (lines 728, 739). -/
noncomputable def effectiveFeedbackGain (g0 perfScale t : ℝ) : ℝ :=
  min g0 FB_MAX_GAIN + min (min 0.18 FB_MAX_GAIN) FB_MAX_GAIN +
    0.015 * perfScale * Real.sin t

/-- C6: the feedback gain of the delay loop stays strictly below unity at
all times: the intrinsic gain is capped at `FB_MAX_GAIN = 0.11`, the
constant baseline is capped at `FB_MAX_GAIN`, and with the breath-LFO
modulation depth `0.015 * perfScale` on top (`perfScale ∈ [0, 1]`) the
effective feedback gain never reaches 1, guaranteeing decay of the loop. -/
theorem C6_feedback_gain_below_unity (g0 perfScale t : ℝ)
    (h0 : 0 ≤ perfScale) (h1 : perfScale ≤ 1) :
    min g0 FB_MAX_GAIN ≤ FB_MAX_GAIN ∧
    min (min 0.18 FB_MAX_GAIN) FB_MAX_GAIN ≤ FB_MAX_GAIN ∧
    effectiveFeedbackGain g0 perfScale t < 1 := by
  refine ⟨min_le_right _ _, min_le_right _ _, ?_⟩
  rw [effectiveFeedbackGain, FB_MAX_GAIN]
  have hs1 := Real.sin_le_one t
  have hm1 : min g0 (0.11:ℝ) ≤ 0.11 := min_le_right _ _
  have hm2 : min (min (0.18:ℝ) 0.11) (0.11:ℝ) ≤ 0.11 := min_le_right _ _
  have hps : perfScale * Real.sin t ≤ 1 :=
    le_trans (mul_le_mul_of_nonneg_left hs1 h0) (by linarith)
  have hterm : 0.015 * (perfScale * Real.sin t) ≤ 0.015 := by linarith
  have hterm' : 0.015 * perfScale * Real.sin t ≤ 0.015 := by
    rw [mul_assoc]
    exact hterm
  linarith

/-- Witness for C6 at a concrete input. -/
theorem C6_feedback_gain_below_unity_witness :
    min 0.5 FB_MAX_GAIN ≤ FB_MAX_GAIN ∧
    min (min 0.18 FB_MAX_GAIN) FB_MAX_GAIN ≤ FB_MAX_GAIN ∧
    effectiveFeedbackGain 0.5 1 0 < 1 :=
  C6_feedback_gain_below_unity 0.5 1 0 (by norm_num) (by norm_num)

/- ═══════ lifecycle state machine (lines 422‑473) ═══════ -/

/-- The inputs `play()` reads: the component props and device conditions. -/
structure PlayInputs where
  frequency : ℚ
  sampleRate : ℚ
  binaural : Bool
  lowEnd : Bool
deriving DecidableEq, Repr

/-- The engine state relevant to the lifecycle claims: the `isPlaying`
flag, the oscillator bank held in `oscBankRef`, and the breath anchor. -/
structure Engine where
  isPlaying : Bool
  oscBank : List Osc
  breathAnchor : ℚ
deriving DecidableEq, Repr

/-- `play()` (line 472 onward).  The guard `if (isPlaying) return;`
(line 473) precedes every effect, so a call while already playing changes
nothing.  Otherwise the harmonic bank is built (lines 874‑898, with
`dyn` from lines 324‑332) and the state becomes playing with the breath
anchor set to the context time at graph creation (line 503). -/
def play (e : Engine) (inp : PlayInputs) (anchor : ℚ) : Engine :=
  if e.isPlaying then e
  else
    { isPlaying := true
      oscBank := buildOscs inp.frequency inp.sampleRate
        ((dyn inp.frequency inp.lowEnd).2 / 2) (dyn inp.frequency inp.lowEnd).1
        inp.binaural
      breathAnchor := anchor }

/-- `stop()` (line 422 onward).  The guard `if (!isPlaying) return;`
(line 423) precedes every effect.  Otherwise the state leaves playing and
the scheduled teardown (modelled separately as `stopSchedule`) eventually
clears the bank; the synchronous outcome is collapsed here. -/
def stop (e : Engine) : Engine :=
  if !e.isPlaying then e
  else { isPlaying := false, oscBank := [], breathAnchor := e.breathAnchor }

/-- C7: `play()` while already Running is a no-op (no second graph, state
unchanged) and `stop()` while Idle is a no-op; both are total functions,
so neither raises an error. -/
theorem C7_idempotent_lifecycle (e : Engine) (inp : PlayInputs) (anchor : ℚ) :
    (e.isPlaying = true → play e inp anchor = e) ∧
    (e.isPlaying = false → stop e = e) := by
  constructor
  · intro h
    rw [play, if_pos h]
  · intro h
    rw [stop]
    simp [h]

/-- Witness for C7 at concrete states. -/
theorem C7_idempotent_lifecycle_witness :
    play ⟨true, [], 0⟩ ⟨440, 96000, true, false⟩ 7 = ⟨true, [], 0⟩ ∧
    stop ⟨false, [], 0⟩ = ⟨false, [], 0⟩ :=
  ⟨(C7_idempotent_lifecycle ⟨true, [], 0⟩ ⟨440, 96000, true, false⟩ 7).1 rfl,
   (C7_idempotent_lifecycle ⟨false, [], 0⟩ ⟨440, 96000, true, false⟩ 7).2 rfl⟩

/- ═══════ stop() teardown schedule (lines 429‑468) ═══════ -/

/-- The timed actions `stop()` issues, as kinds of events. -/
inductive StopEvent where
  | oscGainFadeEnd : StopEvent
  | oscSourceStop : StopEvent
  | busGainFadeEnd : StopEvent
  | lfoSourceStop : StopEvent
  | wetChainDisconnect : StopEvent
  | hardResetAndClose : StopEvent
deriving DecidableEq, Repr

/-- The teardown schedule of `stop()` (lines 429‑468), as offsets in
seconds from the `stop()` call (`now`): every oscillator gain and bus gain
is ramped to zero over `PHI_FADE` seconds (lines 435‑441); every source
(`osc.stop(end)`, the breath LFO and the constant sources, lines 437 and
443‑447) is stopped at `end = now + PHI_FADE`; a `setTimeout` at
`PHI_FADE * 1000 * 0.9` milliseconds disconnects the convolver, wet/dry
gains, delay and feedback gain (lines 449‑460); a second `setTimeout` at
`(PHI_FADE + 0.25) * 1000` runs `hardReset()` and closes the context
(lines 462‑466). -/
noncomputable def stopSchedule : List (ℝ × StopEvent) :=
  [ (PHI_FADE, StopEvent.oscGainFadeEnd),
    (PHI_FADE, StopEvent.oscSourceStop),
    (PHI_FADE, StopEvent.busGainFadeEnd),
    (PHI_FADE, StopEvent.lfoSourceStop),
    (0.9 * PHI_FADE, StopEvent.wetChainDisconnect),
    (PHI_FADE + 0.25, StopEvent.hardResetAndClose) ]

/-- Which events stop a source node. -/
def isSourceStop : StopEvent → Bool
  | StopEvent.oscSourceStop => true
  | StopEvent.lfoSourceStop => true
  | _ => false

/-- C8 fails as stated: the first `setTimeout` of `stop()` disconnects the
wet-chain nodes (convolver, wet/dry gains, delay, feedback gain) at
`0.9 * PHI_FADE` seconds — strictly before the fade window `PHI_FADE` has
completed, contradicting "node disconnection … happens only after the fade
has fully completed". -/
theorem C8_counterexample :
    (0.9 * PHI_FADE, StopEvent.wetChainDisconnect) ∈ stopSchedule ∧
    0.9 * PHI_FADE < PHI_FADE := by
  constructor
  · rw [stopSchedule]
    simp
  · have h := PHI_pos
    rw [PHI_FADE]
    linarith

/-- C8 amended: every gain ramp completes at the end of the `PHI_FADE`
fade window; every source-stop is scheduled exactly at the end of the fade
(never before it); the full teardown (`hardReset` plus context close)
happens only after the fade, at `PHI_FADE + 0.25`; but the wet-chain
disconnect fires at `0.9 * PHI_FADE`, slightly *before* the fade
completes. -/
theorem C8_teardown_schedule :
    (∀ t ev, (t, ev) ∈ stopSchedule → isSourceStop ev = true → t = PHI_FADE) ∧
    (∀ t, (t, StopEvent.hardResetAndClose) ∈ stopSchedule → PHI_FADE < t) ∧
    (∀ t, (t, StopEvent.wetChainDisconnect) ∈ stopSchedule → t < PHI_FADE) := by
  have hphi := PHI_pos
  refine ⟨?_, ?_, ?_⟩
  · intro t ev h hs
    rw [stopSchedule] at h
    simp only [List.mem_cons, List.not_mem_nil, or_false, Prod.mk.injEq] at h
    rcases h with ⟨rfl, rfl⟩ | ⟨rfl, rfl⟩ | ⟨rfl, rfl⟩ | ⟨rfl, rfl⟩ | ⟨rfl, rfl⟩ | ⟨rfl, rfl⟩
    · rfl
    · rfl
    · rfl
    · rfl
    · exact absurd hs (by decide)
    · exact absurd hs (by decide)
  · intro t h
    rw [stopSchedule] at h
    simp only [List.mem_cons, List.not_mem_nil, or_false, Prod.mk.injEq] at h
    rcases h with ⟨rfl, h⟩ | ⟨rfl, h⟩ | ⟨rfl, h⟩ | ⟨rfl, h⟩ | ⟨rfl, h⟩ | ⟨rfl, -⟩
    · exact absurd h (by decide)
    · exact absurd h (by decide)
    · exact absurd h (by decide)
    · exact absurd h (by decide)
    · exact absurd h (by decide)
    · rw [PHI_FADE]
      linarith
  · intro t h
    rw [stopSchedule] at h
    simp only [List.mem_cons, List.not_mem_nil, or_false, Prod.mk.injEq] at h
    rcases h with ⟨rfl, h⟩ | ⟨rfl, h⟩ | ⟨rfl, h⟩ | ⟨rfl, h⟩ | ⟨rfl, -⟩ | ⟨rfl, h⟩
    · exact absurd h (by decide)
    · exact absurd h (by decide)
    · exact absurd h (by decide)
    · exact absurd h (by decide)
    · rw [PHI_FADE]
      linarith
    · exact absurd h (by decide)

/-- Witness for the amended C8 at concrete schedule entries. -/
theorem C8_teardown_schedule_witness :
    PHI_FADE = PHI_FADE ∧ PHI_FADE < PHI_FADE + 0.25 :=
  ⟨C8_teardown_schedule.1 PHI_FADE StopEvent.oscSourceStop
      (by rw [stopSchedule]; simp) rfl,
   C8_teardown_schedule.2.1 (PHI_FADE + 0.25) (by rw [stopSchedule]; simp)⟩

/- ═══════ shared caches (lines 96‑97, 513‑531, 1011‑1017) ═══════ -/

/-- A JavaScript `Map` as an insertion-ordered association list.
`Map.set` updates an existing key in place (keeping its original insertion
position) and otherwise appends at the end. -/
def mapSet {V : Type} (k : String) (v : V) (m : List (String × V)) : List (String × V) :=
  if m.any (fun p => p.1 == k) then m.map (fun p => if p.1 == k then (k, v) else p)
  else m ++ [(k, v)]

/-- `mp3Cache` insertion (lines 1012‑1016): `mp3Cache.set(key, objUrl)`
followed by `if (mp3Cache.size > 24) { … mp3Cache.delete(firstKey) }` —
the first key of a JS `Map` is its least-recently-inserted entry, so the
delete drops the head.  (The `URL.revokeObjectURL` side effect is not
modelled.) -/
def mp3CacheInsert {V : Type} (k : String) (v : V) (m : List (String × V)) :
    List (String × V) :=
  if 24 < (mapSet k v m).length then (mapSet k v m).tail else mapSet k v m

/-- `irCache` insertion (lines 529 and 936): a plain `irCache.set(slugged,
decoded)` — no size check, no eviction anywhere in the file. -/
def irCacheInsert {V : Type} (k : String) (v : V) (m : List (String × V)) :
    List (String × V) :=
  mapSet k v m

theorem length_mapSet_le {V : Type} (k : String) (v : V) (m : List (String × V)) :
    (mapSet k v m).length ≤ m.length + 1 := by
  rw [mapSet]
  split
  · rw [List.length_map]
    omega
  · rw [List.length_append]
    simp

theorem le_length_mapSet {V : Type} (k : String) (v : V) (m : List (String × V)) :
    m.length ≤ (mapSet k v m).length := by
  rw [mapSet]
  split
  · rw [List.length_map]
  · rw [List.length_append]
    simp

/-- C9 amended: the rendered-audio cache (`mp3Cache`) is bounded at 24
entries and, when the bound is exceeded, evicts exactly the
least-recently-inserted entry (the head); the impulse-response cache
(`irCache`) never evicts: a single insertion never shrinks it, so its size
is non-decreasing — but it is *not* bounded by any eviction policy (see the
counterexample). -/
theorem C9_cache_policies {V : Type} (k : String) (v : V) (m : List (String × V))
    (hbound : m.length ≤ 24) :
    (mp3CacheInsert k v m).length ≤ 24 ∧
    m.length ≤ (irCacheInsert k v m).length ∧
    (24 < (mapSet k v m).length → mp3CacheInsert k v m = (mapSet k v m).tail) := by
  refine ⟨?_, le_length_mapSet k v m, fun h => by rw [mp3CacheInsert, if_pos h]⟩
  rw [mp3CacheInsert]
  have hlen := length_mapSet_le k v m
  split
  · rw [List.length_tail]
    omega
  · omega

/-- Witness for the amended C9 at a concrete cache state. -/
theorem C9_cache_policies_witness :
    (mp3CacheInsert "shoh" 1 ([("mek", 2)] : List (String × ℕ))).length ≤ 24 ∧
    ([("mek", 2)] : List (String × ℕ)).length ≤
      (irCacheInsert "shoh" 1 [("mek", 2)]).length ∧
    (24 < (mapSet "shoh" 1 ([("mek", 2)] : List (String × ℕ))).length →
      mp3CacheInsert "shoh" 1 [("mek", 2)] = (mapSet "shoh" 1 [("mek", 2)]).tail) :=
  C9_cache_policies "shoh" 1 [("mek", 2)] (by norm_num)

/-- 26 distinct slugs. -/
def c9keys : List String :=
  ["a", "b", "c", "d", "e", "f", "g", "h", "i", "j", "k", "l", "m",
   "n", "o", "p", "q", "r", "s", "t", "u", "v", "w", "x", "y", "z"]

/-- C9 fails as stated: inserting 26 distinct slugs into the
impulse-response cache leaves it with 26 entries — beyond the 24-entry
bound used by the other cache — and the least-recently-inserted entry
(`"a"`) is still present: the IR cache is not bounded by an eviction
policy and never evicts. -/
theorem C9_counterexample :
    (c9keys.foldl (fun m k => irCacheInsert k 0 m) ([] : List (String × ℕ))).length = 26 ∧
    ((c9keys.foldl (fun m k => irCacheInsert k 0 m)
        ([] : List (String × ℕ))).head?.map Prod.fst) = some "a" := by
  constructor
  · decide
  · decide

/- ═══════ slug (lines 132‑133) and the IR path (line 519) ═══════ -/

/-- The character class `[a-z0-9 ]` kept by the `replace` on line 133. -/
def isSlugChar (c : Char) : Bool :=
  ('a' ≤ c && c ≤ 'z') || ('0' ≤ c && c ≤ '9') || c == ' '

/-- JS `toLowerCase()` (Unicode default case conversion) as a map to
character sequences, spelled out on every code point whose lowercase
matters to the `[a-z0-9 ]` filter that follows: `A`‑`Z` map to `a`‑`z`;
U+212A KELVIN SIGN lowercases to the ASCII `k`; U+0130 LATIN CAPITAL
LETTER I WITH DOT ABOVE has the two-character lowercase mapping `i`
followed by U+0307 COMBINING DOT ABOVE (Unicode's only unconditional
multi-character lowercase mapping).  These are the only code points whose
lowercase contains a `[a-z0-9 ]` character without the code point being
one already.  Every other character is kept unchanged, which is faithful
for the composite `slug`: for such a character both it and its real
lowercase lie outside `[a-z0-9 ]`, so the filter erases either; and since
no character lowercases to a space while the space lowercases to itself,
the first-field boundary is unaffected as well. -/
def jsToLowerMap (c : Char) : List Char :=
  match c with
  | 'A' => ['a'] | 'B' => ['b'] | 'C' => ['c'] | 'D' => ['d'] | 'E' => ['e']
  | 'F' => ['f'] | 'G' => ['g'] | 'H' => ['h'] | 'I' => ['i'] | 'J' => ['j']
  | 'K' => ['k'] | 'L' => ['l'] | 'M' => ['m'] | 'N' => ['n'] | 'O' => ['o']
  | 'P' => ['p'] | 'Q' => ['q'] | 'R' => ['r'] | 'S' => ['s'] | 'T' => ['t']
  | 'U' => ['u'] | 'V' => ['v'] | 'W' => ['w'] | 'X' => ['x'] | 'Y' => ['y']
  | 'Z' => ['z']
  | '\u212A' => ['k']
  | '\u0130' => ['i', '\u0307']
  | c => [c]

/-- `slug` (lines 132‑133) on the character list:
`t.toLowerCase().replace(/[^a-z0-9 ]/g, "").split(" ")[0] || "default"`.
`split(" ")[0]` is the prefix before the first space; the `|| "default"`
replaces an empty first field. -/
def slugChars (cs : List Char) : List Char :=
  let f := ((cs.bind jsToLowerMap).filter isSlugChar).takeWhile (fun c => c != ' ')
  if f = [] then "default".toList else f

/-- `slug` on strings. -/
def slug (t : String) : String := String.mk (slugChars t.toList)

/-- The impulse-response file path derived on line 519:
`/audio/ir/${slugged}.wav`. -/
def irPath (t : String) : String := "/audio/ir/" ++ slug t ++ ".wav"

/-- No character other than the space lowercases to (or past) a space. -/
theorem jsToLowerMap_ne_space {c : Char} (h : c ≠ ' ') :
    ∀ x ∈ jsToLowerMap c, (x != ' ') = true := by
  unfold jsToLowerMap
  split
  all_goals first
    | decide
    | (intro x hx
       simp only [List.mem_singleton] at hx
       subst hx
       simp [h])

/-- `takeWhile` passes over a prefix on which the predicate holds. -/
theorem takeWhile_append_of_all {p : Char → Bool} {l₂ : List Char} :
    ∀ {l₁ : List Char}, (∀ x ∈ l₁, p x = true) →
      (l₁ ++ l₂).takeWhile p = l₁ ++ l₂.takeWhile p := by
  intro l₁
  induction l₁ with
  | nil => intro _; simp
  | cons a t ih =>
    intro h
    rw [List.cons_append, List.takeWhile_cons, h a (List.mem_cons_self a t), if_pos rfl,
      ih (fun x hx => h x (List.mem_cons_of_mem a hx)), List.cons_append]

/-- Lowercasing and filtering commute with taking the first
space-separated field: lowercasing maps a space to a space and nothing
else to one, and stripping characters never deletes or introduces a space,
so the first field of the cleaned string is the cleaned first field of the
raw string. -/
theorem filter_bind_takeWhile (cs : List Char) :
    ((cs.bind jsToLowerMap).filter isSlugChar).takeWhile (fun c => c != ' ')
    = ((cs.takeWhile (fun c => c != ' ')).bind jsToLowerMap).filter isSlugChar := by
  induction cs with
  | nil => rfl
  | cons c t ih =>
    by_cases hsp : c = ' '
    · subst hsp
      simp [show jsToLowerMap ' ' = [' '] from rfl,
        show isSlugChar ' ' = true from rfl]
    · have hall : ∀ x ∈ (jsToLowerMap c).filter isSlugChar, (x != ' ') = true := by
        intro x hx
        exact jsToLowerMap_ne_space hsp x (List.mem_of_mem_filter hx)
      have hbc : (c != ' ') = true := by
        simp [hsp]
      rw [List.takeWhile_cons, hbc, if_pos rfl]
      simp only [List.cons_bind]
      rw [List.filter_append, List.filter_append, takeWhile_append_of_all hall, ih]

/-- `slugChars` in first-word normal form. -/
theorem slugChars_normal (cs : List Char) :
    slugChars cs =
      (if ((cs.takeWhile (fun c => c != ' ')).bind jsToLowerMap).filter isSlugChar = []
       then "default".toList
       else ((cs.takeWhile (fun c => c != ' ')).bind jsToLowerMap).filter isSlugChar) := by
  rw [slugChars, filter_bind_takeWhile]

/-- C10: the slug function is total and collapses a phrase to its first
word: for every input it returns the first space-separated field of the
lowercased, `[a-z0-9 ]`-filtered input — equivalently, the cleaned first
raw word — or the literal `"default"` when that field is empty;
consequently any two phrases sharing the same first word resolve to the
same impulse-response file path (hence the same IR cache entry). -/
theorem C10_slug_first_word :
    (∀ cs : List Char, slugChars cs =
      (if ((cs.takeWhile (fun c => c != ' ')).bind jsToLowerMap).filter isSlugChar = []
       then "default".toList
       else ((cs.takeWhile (fun c => c != ' ')).bind jsToLowerMap).filter isSlugChar)) ∧
    (∀ t₁ t₂ : String,
      t₁.toList.takeWhile (fun c => c != ' ') = t₂.toList.takeWhile (fun c => c != ' ') →
      irPath t₁ = irPath t₂) := by
  refine ⟨slugChars_normal, ?_⟩
  intro t₁ t₂ h
  rw [irPath, irPath, slug, slug, slugChars_normal, slugChars_normal, h]

/-- Witness for C10: two phrases sharing the first word `Rah` resolve to
the same impulse-response path. -/
theorem C10_slug_first_word_witness :
    irPath "Rah Voh Lah" = irPath "Rah Zor Mek" :=
  C10_slug_first_word.2 "Rah Voh Lah" "Rah Zor Mek" (by decide)

end HarmonicPlayer
